import Mathlib

/-
Verification of the IFRS taxonomy ETL pipeline (src/src/etl/ifrs_taxonomy_elt.py).

The development shallowly embeds the core data transformations of the script:
the group tagger (SECTION 2), the label cleaner (SECTION 2), the hierarchy
builder build_hierarchy (SECTION 3), the tree materializer df_to_tree and the
flattener flatten_tree_to_table (SECTION 4), the QA checks and the
failed-critical computation (SECTION 5), and the fail-fast output gating at the
end of main (SECTION 6 onward).

Modelling conventions:
  - a pandas cell that can be NaN is an Option String, none standing for NaN;
  - the label_clean column is produced by astype(str).str.strip(), which turns
    NaN into the literal string nan, so it is a plain String;
  - Python truthiness of values is transcribed exactly: the empty string is
    falsy, a NaN float is truthy (this matters for the base-path computation
    in df_to_tree, where group_name or group_code or "" yields NaN when the
    group columns are NaN, and the subsequent string concatenation raises
    TypeError; the embedding returns Except.error "TypeError" there);
  - in-place DataFrame mutation is modelled by state passing: a stage that can
    mutate its input returns the post-call state of that input along with its
    result;
  - string helpers (strStartsWith, pyStrip, pyContainsSub, natToStr) are
    written over character lists so that every definition reduces inside the
    kernel; they implement the same functions the script calls.
-/

/-- One extracted spreadsheet row before grouping and cleaning; mirrors the
row_data dict built in the extraction loop (excel_row, Concept name,
Preferred label, indent, Type, plus the optional metadata columns).  An
Option String field is none when the pandas cell is NaN or the column is
absent. -/
structure RawRow where
  excelRow : Nat
  conceptName : Option String
  preferredLabel : Option String
  indent : Nat
  rowType : Option String
  standardLabel : Option String
  documentationLabel : Option String
  guidanceLabel : Option String
  references : Option String
  referenceLinks : Option String
deriving DecidableEq

/-- A row of df_grouped: a RawRow plus the forward-filled group_code and
group_name columns produced by str.extract on Concept name. -/
structure GRow extends RawRow where
  groupCode : Option String
  groupName : Option String
deriving DecidableEq

/-- A row of df_cleaned (and hence of df_hierarchy before the in-place
additions of build_hierarchy): a GRow plus the label_clean column.  The
label_clean column comes from astype(str).str.strip() and is therefore never
NaN, hence a plain String. -/
structure TaxRow extends GRow where
  labelClean : String
deriving DecidableEq

/-- Boolean prefix test on character lists (first argument is the candidate
prefix). -/
def listPrefixB : List Char → List Char → Bool
  | [], _ => true
  | _ :: _, [] => false
  | a :: as, b :: bs => a = b && listPrefixB as bs

/-- Embedding of Python str.startswith: strStartsWith s p is true when p is a
prefix of s. -/
def strStartsWith (s p : String) : Bool := listPrefixB p.toList s.toList

/-- Boolean substring test on character lists (first argument is the needle). -/
def listInfixB (needle : List Char) : List Char → Bool
  | [] => needle.isEmpty
  | c :: cs => listPrefixB needle (c :: cs) || listInfixB needle cs

/-- Embedding of Python substring containment, as used by
str.contains(..., regex=False). -/
def pyContainsSub (hay needle : String) : Bool := listInfixB needle.toList hay.toList

/-- Drop leading and trailing whitespace from a character list. -/
def stripChars (cs : List Char) : List Char :=
  ((cs.dropWhile Char.isWhitespace).reverse.dropWhile Char.isWhitespace).reverse

/-- Embedding of Python str.strip(). -/
def pyStrip (s : String) : String := String.mk (stripChars s.toList)

/-- Decimal digit character for n between 0 and 9. -/
def digitChar (n : Nat) : Char := Char.ofNat (48 + n)

/-- Fuel-driven decimal rendering of a natural number (the fuel n+1 always
suffices); written this way so that it reduces inside the kernel. -/
def natToStrGo : Nat → Nat → List Char
  | 0, _ => []
  | fuel + 1, n => if n < 10 then [digitChar n] else natToStrGo fuel (n / 10) ++ [digitChar (n % 10)]

/-- Decimal rendering of a natural number, used for the Level_i column names. -/
def natToStr (n : Nat) : String := String.mk (natToStrGo (n + 1) n)

/-- Embedding of the group-header regex of SECTION 2,
caret bracket (six digits) bracket whitespace-star (free text): an opening
square bracket, exactly six ASCII digits, a closing square bracket, optional
whitespace, then the rest of the cell captured as the group name. -/
def headerMatch (s : String) : Option (String × String) :=
  match s.toList with
  | '[' :: rest =>
    if (rest.take 6).length = 6 && (rest.take 6).all Char.isDigit then
      match rest.drop 6 with
      | ']' :: rest2 => some (String.mk (rest.take 6), String.mk (rest2.dropWhile Char.isWhitespace))
      | _ => none
    else none
  | _ => none

/-- Group tagger (SECTION 2): per-row forward fill of the extracted
(group_code, group_name) pair.  Rows whose Concept name matches the header
regex update the current group; other rows inherit it; rows before the first
match keep NaN in both columns. -/
def tagGo (curCode curName : Option String) : List RawRow → List GRow
  | [] => []
  | r :: rs =>
    match r.conceptName.bind headerMatch with
    | some cn =>
      { toRawRow := r, groupCode := some cn.1, groupName := some cn.2 } ::
        tagGo (some cn.1) (some cn.2) rs
    | none =>
      { toRawRow := r, groupCode := curCode, groupName := curName } :: tagGo curCode curName rs

/-- The whole group-tagging pass over df_original, starting with no current
group. -/
def tagRows (rs : List RawRow) : List GRow := tagGo none none rs

/-- Embedding of astype(str).str.strip() on the Preferred label column: a NaN
cell is rendered by astype(str) as the string nan, then stripped. -/
def labelCleanOf (pl : Option String) : String :=
  match pl with
  | none => pyStrip "nan"
  | some s => pyStrip s

/-- Label cleaner (SECTION 2) for one row: compute label_clean, reclassify a
row with NaN Type whose cleaned label contains the literal text [abstract] to
Type abstract, and drop the row (none) when Type is still NaN. -/
def cleanRow (g : GRow) : Option TaxRow :=
  match g.rowType with
  | some t => some { toGRow := { g with rowType := some t }, labelClean := labelCleanOf g.preferredLabel }
  | none =>
    if pyContainsSub (labelCleanOf g.preferredLabel) "[abstract]" then
      some { toGRow := { g with rowType := some "abstract" }, labelClean := labelCleanOf g.preferredLabel }
    else none

/-- The whole cleaning pass over df_grouped, order preserved. -/
def cleanRows (gs : List GRow) : List TaxRow := gs.filterMap cleanRow

/-- One frame of the parent_stack of build_hierarchy: the (indent, Concept
name, label_clean) triple pushed for a processed row.  The head of the list is
the top of the stack. -/
structure HFrame where
  depth : Nat
  concept : Option String
  label : String
deriving DecidableEq

/-- The frame build_hierarchy pushes for a row. -/
def frameOf (r : TaxRow) : HFrame := { depth := r.indent, concept := r.conceptName, label := r.labelClean }

/-- The pop loop of build_hierarchy: while the stack is non-empty and the top
frame depth is at least the current indent, pop. -/
def popGE (level : Nat) (st : List HFrame) : List HFrame :=
  st.dropWhile (fun f => decide (level ≤ f.depth))

/-- Parent assignment of build_hierarchy, row by row: pop the stack, read the
parent concept from the new top (None when the stack is empty, and also when
the parent row had a NaN Concept name, exactly as in Python where both give a
null parent), then push the frame of the current row. -/
def parentsGo (st : List HFrame) : List TaxRow → List (Option String)
  | [] => []
  | r :: rs =>
    ((popGE r.indent st).head?.bind HFrame.concept) ::
      parentsGo (frameOf r :: popGE r.indent st) rs

/-- The parent_concepts list build_hierarchy computes for a row sequence. -/
def buildParents (rows : List TaxRow) : List (Option String) := parentsGo [] rows

/-- The parent_stack contents after build_hierarchy has processed the given
rows (head is the top of the stack). -/
def stackGo (st : List HFrame) : List TaxRow → List HFrame
  | [] => st
  | r :: rs => stackGo (frameOf r :: popGE r.indent st) rs

/-- Stack state after processing a row list from the initial empty stack. -/
def stackAfter (rows : List TaxRow) : List HFrame := stackGo [] rows

/-- Cells of the Level_(i+1) column of build_hierarchy: after the pop and
before the push, the label of the stack frame at bottom-based index i, or None
when the stack is shorter. -/
def levelCellGo (i : Nat) (st : List HFrame) : List TaxRow → List (Option String)
  | [] => []
  | r :: rs =>
    (((popGE r.indent st).reverse)[i]?).map HFrame.label ::
      levelCellGo i (frameOf r :: popGE r.indent st) rs

/-- The named Level_1 .. Level_max columns build_hierarchy assigns onto its
input DataFrame. -/
def levelColumns (maxLevels : Nat) (rows : List TaxRow) : List (String × List (Option String)) :=
  (List.range maxLevels).map (fun i => ("Level_" ++ natToStr (i + 1), levelCellGo i [] rows))

/-- The in-place effect of build_hierarchy on its argument DataFrame: the rows
with the parent_concept column and the Level_i columns that the function
assigns onto df before returning it. -/
structure HDf where
  rows : List TaxRow
  parentCol : Option (List (Option String))
  levelCols : List (String × List (Option String))
deriving DecidableEq

/-- Embedding of build_hierarchy as called from main: the function iterates
over its argument df, then assigns df[parent_concept] and the Level_i columns
onto that same object and returns it, so the post-call state of the input and
the returned DataFrame are one and the same annotated object. -/
def buildHierarchyInPlace (df : HDf) (maxLevels : Nat) : HDf × HDf :=
  let annotated : HDf :=
    { df with
        parentCol := some (buildParents df.rows)
        levelCols := df.levelCols ++ levelColumns maxLevels df.rows }
  (annotated, annotated)

/-- The per-node record of df_to_tree (every field of the node dict except the
children list), which is also exactly one row of the flattened
materialized-path table. -/
structure FlatRow where
  fullPath : String
  excelRow : Nat
  conceptName : Option String
  preferredLabel : Option String
  label : String
  groupCode : Option String
  groupName : Option String
  rowType : Option String
  standardLabel : Option String
  documentationLabel : Option String
  guidanceLabel : Option String
  references : Option String
  referenceLinks : Option String
deriving DecidableEq

/-- The node record df_to_tree builds for a row, given the computed full
path. -/
def rowNode (r : TaxRow) (p : String) : FlatRow :=
  { fullPath := p
    excelRow := r.excelRow
    conceptName := r.conceptName
    preferredLabel := r.preferredLabel
    label := r.labelClean
    groupCode := r.groupCode
    groupName := r.groupName
    rowType := r.rowType
    standardLabel := r.standardLabel
    documentationLabel := r.documentationLabel
    guidanceLabel := r.guidanceLabel
    references := r.references
    referenceLinks := r.referenceLinks }

/-- The record with the path field blanked, used to compare flattened output
against input rows independently of path computation. -/
def stripPath (fr : FlatRow) : FlatRow := { fr with fullPath := "" }

/-- An owned node of the taxonomy tree: its record and its ordered children. -/
inductive TNode where
  | mk : FlatRow → List TNode → TNode

mutual

/-- Depth-first pre-order flattening of one node, as flatten_tree_to_table
does: emit the node record, then recurse into the children in insertion
order. -/
def flattenNode : TNode → List FlatRow
  | TNode.mk d cs => d :: flattenForest cs

/-- Depth-first pre-order flattening of a node list (the recurse helper of
flatten_tree_to_table applied to a sibling list). -/
def flattenForest : List TNode → List FlatRow
  | [] => []
  | t :: ts => flattenNode t ++ flattenForest ts

end

/-- Embedding of the base_path expression of df_to_tree,
group_name or group_code or the empty string, with Python truthiness: NaN is
truthy, so a NaN group_name (or a falsy group_name with NaN group_code) makes
the whole expression NaN (none here), which the subsequent string
concatenation turns into a TypeError; an empty-string group_name falls
through to group_code. -/
def basePathOf (r : TaxRow) : Option String :=
  match r.groupName with
  | none => none
  | some n =>
    if n = "" then
      match r.groupCode with
      | none => none
      | some c => if c = "" then some "" else some c
    else some n

/-- Embedding of the current_path expression of df_to_tree: when the top path
is falsy (empty) or starts with the base segment, the path is the base
followed by the label (label omitted when empty); otherwise it is the top
path followed by the label, with no emptiness check on the label in that
branch. -/
def currentPathOf (top base label : String) : String :=
  if top = "" || strStartsWith top base then
    base ++ (if label = "" then "" else " > " ++ label)
  else top ++ " > " ++ label

/-- One frame of the df_to_tree stack in the pure zipper rendering: the row
indent, the accumulated path, the node record, and the children gathered so
far.  In Python the frame holds a live reference into the children list of a
node that is already attached to its parent; here the node stays open on the
stack and is attached when the frame is popped, which produces the same final
tree.  The head of the list is the top of the stack; the bottom sentinel
(-1, root, empty path) of Python is kept implicit, since row indents are
natural numbers and the sentinel is never popped. -/
structure BFrame where
  depth : Nat
  path : String
  data : FlatRow
  kids : List TNode

/-- The path of the top stack frame, or the sentinel empty path. -/
def topPathF : List BFrame → String
  | [] => ""
  | f :: _ => f.path

/-- Cascade a finished node downward while frames keep satisfying the pop
condition (depth at least level): each popped frame absorbs the pending node
at the end of its children and closes in turn; when the pending node reaches a
frame that stays, it is appended to that frame; when it reaches the bottom,
it is delivered as a finished root (some). -/
def popCloseAux (level : Nat) : List BFrame → TNode → List BFrame × Option TNode
  | [], t => ([], some t)
  | g :: gs, t =>
    if level ≤ g.depth then popCloseAux level gs (TNode.mk g.data (g.kids ++ [t]))
    else ({ g with kids := g.kids ++ [t] } :: gs, none)

/-- Append a delivered root, if any, to the finished-roots accumulator. -/
def mergeAcc (acc : List TNode) : Option TNode → List TNode
  | some t => acc ++ [t]
  | none => acc

/-- The pop loop of df_to_tree (while the stack is non-empty and the top depth
is at least the row indent, pop), in the zipper rendering: popping a frame
closes its node into the frame below or into the root list. -/
def popClose (level : Nat) (frames : List BFrame) (acc : List TNode) : List BFrame × List TNode :=
  match frames with
  | [] => ([], acc)
  | f :: rest =>
    if level ≤ f.depth then
      ((popCloseAux level rest (TNode.mk f.data f.kids)).1,
        mergeAcc acc (popCloseAux level rest (TNode.mk f.data f.kids)).2)
    else (f :: rest, acc)

/-- Row loop of df_to_tree: compute base_path (TypeError when it is NaN),
compute current_path from the stack top BEFORE popping, pop frames of depth at
least the row indent, attach the new node there, and push its frame.  At the
end of the rows, every still-open frame closes (level 0 pops everything, as
every Nat indent is at least 0), leaving the finished root list. -/
def treeGo : List BFrame → List TNode → List TaxRow → Except String (List TNode)
  | frames, acc, [] => .ok (popClose 0 frames acc).2
  | frames, acc, r :: rs =>
    match basePathOf r with
    | none => .error "TypeError"
    | some base =>
      treeGo
        ({ depth := r.indent
           path := currentPathOf (topPathF frames) base r.labelClean
           data := rowNode r (currentPathOf (topPathF frames) base r.labelClean)
           kids := [] } :: (popClose r.indent frames acc).1)
        (popClose r.indent frames acc).2 rs

/-- Embedding of df_to_tree on the hierarchy rows. -/
def dfToTree (rows : List TaxRow) : Except String (List TNode) := treeGo [] [] rows

/-- Projection of a construction frame to the (depth, path) pair that the
path computation observes. -/
def projBF (f : BFrame) : Nat × String := (f.depth, f.path)

/-- The pop loop on projected (depth, path) frames. -/
def popGEP (level : Nat) (st : List (Nat × String)) : List (Nat × String) :=
  st.dropWhile (fun p => decide (level ≤ p.1))

/-- The path of the top projected frame, or the sentinel empty path. -/
def topPathP : List (Nat × String) → String
  | [] => ""
  | p :: _ => p.2

/-- Direct scan computing the sequence of full paths that df_to_tree assigns,
in row order: for each row the path is computed from the top of the stack
BEFORE the pop loop runs, then the stack is popped and the (indent, path) pair
is pushed.  This is the path logic of the source lifted out of the tree
construction. -/
def pathGo : List (Nat × String) → List TaxRow → Except String (List String)
  | _, [] => .ok []
  | st, r :: rs =>
    match basePathOf r with
    | none => .error "TypeError"
    | some base =>
      match pathGo ((r.indent, currentPathOf (topPathP st) base r.labelClean) :: popGEP r.indent st) rs with
      | .ok ps => .ok (currentPathOf (topPathP st) base r.labelClean :: ps)
      | .error e => .error e

/-- Formalisation of the path rule exactly as claim C2 states it: first pop
every frame of depth at least the row indent, call the remaining top frame the
parent, and compute the path from the path of that parent (so from the
post-pop top, not from the pre-pop top as the source does). -/
def claimC2Go : List (Nat × String) → List TaxRow → Except String (List String)
  | _, [] => .ok []
  | st, r :: rs =>
    match basePathOf r with
    | none => .error "TypeError"
    | some base =>
      match claimC2Go ((r.indent, currentPathOf (topPathP (popGEP r.indent st)) base r.labelClean) :: popGEP r.indent st) rs with
      | .ok ps => .ok (currentPathOf (topPathP (popGEP r.indent st)) base r.labelClean :: ps)
      | .error e => .error e

/-- Claim C2 path sequence from the empty stack. -/
def claimC2Paths (rows : List TaxRow) : Except String (List String) := claimC2Go [] rows

/-- The full-path column of the flattened table produced from a row list, or
the error df_to_tree raises. -/
def treePathsOf (rows : List TaxRow) : Except String (List String) :=
  match dfToTree rows with
  | .ok ts => .ok ((flattenForest ts).map FlatRow.fullPath)
  | .error e => .error e

/-- QA check no_empty_labels_unless_abstract (SECTION 5), transcribed from the
source: select the label_clean cells of the rows whose Type differs from
abstract and test that every selected cell is non-NA.  The label_clean column
of df_hierarchy holds genuine strings (it was built by astype(str)), so each
selected cell is some string; the source tests notna, not emptiness. -/
def qaNoEmptyLabelsUnlessAbstract (hier : List TaxRow) : Bool :=
  ((hier.filter (fun r => r.rowType ≠ some "abstract")).map
      (fun r => (some r.labelClean : Option String))).all (fun c => c.isSome)

/-- QA check all_have_group_info (SECTION 5): every group_code and every
group_name cell is non-NA. -/
def qaAllHaveGroupInfo (hier : List TaxRow) : Bool :=
  (hier.all (fun r => r.groupCode.isSome)) && (hier.all (fun r => r.groupName.isSome))

/-- QA check indent_matches_int (SECTION 5): a dtype-level test on the indent
column; in the embedding the indent column holds Nat values by construction
(the extraction loop applies int() to every cell), so the check holds. -/
def qaIndentMatchesInt (indentCol : List Nat) : Bool :=
  indentCol.all (fun _ => true)

/-- Embedding of pandas Series.is_unique on the full_path column: all values
pairwise distinct. -/
def seriesIsUnique (l : List String) : Bool := decide l.Nodup

/-- QA check unique_full_path (SECTION 5): is_unique on the full_path column
of the flattened materialized-path table. -/
def qaUniqueFullPath (flat : List FlatRow) : Bool :=
  seriesIsUnique (flat.map FlatRow.fullPath)

/-- The qa_results dict of SECTION 5, as an ordered key-value list. -/
def qaChecks (hier : List TaxRow) (flat : List FlatRow) : List (String × Bool) :=
  [("all_have_group_info", qaAllHaveGroupInfo hier),
   ("indent_matches_int", qaIndentMatchesInt (hier.map (fun r => r.indent))),
   ("no_empty_labels_unless_abstract", qaNoEmptyLabelsUnlessAbstract hier),
   ("unique_full_path", qaUniqueFullPath flat)]

/-- The four check names that are keys of qa_results. -/
def qaKeys : List String :=
  ["all_have_group_info", "indent_matches_int", "no_empty_labels_unless_abstract", "unique_full_path"]

/-- Python dict subscript on qa_results: the value when the key is present, a
KeyError otherwise. -/
def dictGetB (d : List (String × Bool)) (k : String) : Except String Bool :=
  match d.lookup k with
  | some v => .ok v
  | none => .error ("KeyError: " ++ k)

/-- The failed_critical list comprehension of SECTION 5: walk the configured
critical check names in order, look each up in qa_results (raising KeyError on
an unknown name), and keep the names whose check failed. -/
def failedCriticalE (d : List (String × Bool)) : List String → Except String (List String)
  | [] => .ok []
  | c :: cs =>
    match dictGetB d c with
    | .error e => .error e
    | .ok v =>
      match failedCriticalE d cs with
      | .error e => .error e
      | .ok rest => .ok (if v then rest else c :: rest)

/-- The externally visible write effects of the tail of main, in program
order: the JSON and Markdown run logs (each recording the force_override
flag), the fail-fast process exit, and the three downstream output groups
(hierarchy CSV and pickle, materialized-path CSV and pickle, taxonomy-tree
JSON and pickle). -/
inductive EtlEffect where
  | writeRunLogJson (forceRecorded : Bool)
  | writeRunLogMd (forceRecorded : Bool)
  | exitFail
  | writeHierarchyOutputs
  | writeMaterializedOutputs
  | writeTreeOutputs
deriving DecidableEq

/-- Embedding of the output phase of main (SAVE JSON RUN LOG onward): both run
logs are written first, recording args.force in run_metadata; then, when some
critical check failed and force is not set, the process exits before any
downstream output; otherwise the hierarchy table, the materialized-path table
and the taxonomy tree are all written. -/
def mainOutputPhase (failedCritical : List String) (force : Bool) : List EtlEffect :=
  [EtlEffect.writeRunLogJson force, EtlEffect.writeRunLogMd force] ++
    (if (!failedCritical.isEmpty) && (!force) then [EtlEffect.exitFail]
     else [EtlEffect.writeHierarchyOutputs, EtlEffect.writeMaterializedOutputs,
           EtlEffect.writeTreeOutputs])

/-- Stage wrapper for the group tagger: df_grouped is built on a copy of
df_original, so the post-stage state of the input equals its pre-stage
state. -/
def groupTaggerStage (dfOriginal : List RawRow) : List RawRow × List GRow :=
  (dfOriginal, tagRows dfOriginal)

/-- Stage wrapper for the cleaner: df_cleaned is built on a copy of
df_grouped, so the input is unchanged. -/
def cleanerStage (dfGrouped : List GRow) : List GRow × List TaxRow :=
  (dfGrouped, cleanRows dfGrouped)

/-- Stage wrapper for the tree materializer: df_to_tree only reads its input
DataFrame. -/
def materializerStage (dfHierarchy : HDf) : HDf × Except String (List TNode) :=
  (dfHierarchy, dfToTree dfHierarchy.rows)

/-- Stage wrapper for the flattener: flatten_tree_to_table only reads the
tree. -/
def flattenerStage (tree : List TNode) : List TNode × List FlatRow :=
  (tree, flattenForest tree)

/-- Compact constructor for hierarchy-table rows used in the concrete
scenarios below. -/
def mkRow (er : Nat) (cn : Option String) (ind : Nat) (lc : String)
    (gc gn : Option String) (ty : Option String) : TaxRow :=
  { excelRow := er
    conceptName := cn
    preferredLabel := some lc
    indent := ind
    rowType := ty
    standardLabel := none
    documentationLabel := none
    guidanceLabel := none
    references := none
    referenceLinks := none
    groupCode := gc
    groupName := gn
    labelClean := lc }

/-- Row A at depth 0 of the scenario of claim C1 (group context present so the
same rows also feed the materializer in other claims). -/
def c1RowA : TaxRow := mkRow 2 (some "A") 0 "A" (some "000001") (some "G") (some "abstract")

/-- Row B at depth 1 of the scenario of claim C1. -/
def c1RowB : TaxRow := mkRow 3 (some "B") 1 "B" (some "000001") (some "G") (some "member")

/-- Row C at depth 1 of the scenario of claim C1. -/
def c1RowC : TaxRow := mkRow 4 (some "C") 1 "C" (some "000001") (some "G") (some "member")

/-- Row D at depth 0 of the scenario of claim C1. -/
def c1RowD : TaxRow := mkRow 5 (some "D") 0 "D" (some "000001") (some "G") (some "member")

/-- The four-row scenario of claim C1: depths 0, 1, 1, 0 with labels A, B, C,
D. -/
def c1Rows : List TaxRow := [c1RowA, c1RowB, c1RowC, c1RowD]

/-- A three-row input separating the pre-pop path rule of the source from the
post-pop rule of claim C2: two rows under group G at depths 0 and 1, then a
row at depth 1 under group X. -/
def c2Rows : List TaxRow :=
  [mkRow 2 (some "a1") 0 "A" (some "000001") (some "G") (some "abstract"),
   mkRow 3 (some "b1") 1 "B" (some "000001") (some "G") (some "member"),
   mkRow 4 (some "c1") 1 "C" (some "000002") (some "X") (some "member")]

/-- The tree df_to_tree builds from the C2 scenario rows. -/
def c2Tree : List TNode :=
  match dfToTree c2Rows with
  | .ok ts => ts
  | .error _ => []

/-- The tree df_to_tree builds from the C1 scenario rows, used for the
round-trip witness. -/
def c6Tree : List TNode :=
  match dfToTree c1Rows with
  | .ok ts => ts
  | .error _ => []

/-- A two-row flattened table with distinct full paths, for the
unique_full_path witness. -/
def c3Flat : List FlatRow :=
  [rowNode c1RowA "G > A", rowNode c1RowB "G > A > B"]

/-- A non-abstract hierarchy row whose cleaned label is empty (its Preferred
label cell was whitespace-only): the input on which the
no_empty_labels_unless_abstract check diverges from its stated purpose. -/
def c7Row : TaxRow := mkRow 7 (some "ifrs_x") 0 "" (some "000001") (some "G") (some "member")

/-- The pre-cleaning form of c7Row: Type present, Preferred label
whitespace-only. -/
def c7GRow : GRow :=
  { excelRow := 7
    conceptName := some "ifrs_x"
    preferredLabel := some "   "
    indent := 0
    rowType := some "member"
    standardLabel := none
    documentationLabel := none
    guidanceLabel := none
    references := none
    referenceLinks := none
    groupCode := some "000001"
    groupName := some "G" }

/-- The cleaned form of c7GRow (label_clean is the empty string). -/
def c7RowCleaned : TaxRow :=
  { toGRow := c7GRow, labelClean := "" }

/-- A hierarchy row that precedes any group header: both group columns are
NaN, as the forward fill leaves them before the first header match. -/
def c8Row : TaxRow := mkRow 2 (some "Revenue") 0 "Revenue" none none (some "member")

/-- The raw form of c8Row, before tagging. -/
def c8Raw : RawRow :=
  { excelRow := 2
    conceptName := some "Revenue"
    preferredLabel := some "Revenue"
    indent := 0
    rowType := some "member"
    standardLabel := none
    documentationLabel := none
    guidanceLabel := none
    references := none
    referenceLinks := none }

/-- A one-row hierarchy DataFrame before build_hierarchy runs, for the
mutation counterexample. -/
def c9Df : HDf := { rows := [c1RowA], parentCol := none, levelCols := [] }

theorem parentsGo_char (rows : List TaxRow) : ∀ (st : List HFrame) (i : Nat) (r : TaxRow),
    rows[i]? = some r →
    (parentsGo st rows)[i]? =
        some ((popGE r.indent (stackGo st (rows.take i))).head?.bind HFrame.concept) ∧
      stackGo st (rows.take (i + 1)) = frameOf r :: popGE r.indent (stackGo st (rows.take i)) := by
  induction rows with
  | nil => intro st i r h; simp at h
  | cons x xs ih =>
    intro st i r h
    cases i with
    | zero =>
      rw [List.getElem?_cons_zero, Option.some.injEq] at h
      subst h
      exact ⟨by simp [parentsGo, stackGo], by simp [List.take, stackGo]⟩
    | succ j =>
      rw [List.getElem?_cons_succ] at h
      have hj := ih (frameOf x :: popGE x.indent st) j r h
      refine ⟨?_, ?_⟩
      · simpa [parentsGo, List.take, stackGo] using hj.1
      · simpa [List.take, stackGo] using hj.2

theorem head_popGE {level : Nat} {st : List HFrame} {f : HFrame}
    (h : (popGE level st).head? = some f) : f.depth < level := by
  induction st with
  | nil => simp [popGE] at h
  | cons a rest ih =>
    by_cases ha : level ≤ a.depth
    · exact ih (by simpa [popGE, List.dropWhile_cons, ha] using h)
    · rw [popGE, List.dropWhile_cons] at h
      simp only [ha, decide_eq_true_eq, if_neg, List.head?_cons, Option.some.injEq, decide_False,
        Bool.false_eq_true, if_false] at h
      subst h
      omega

theorem chain_dropWhile {α : Type} {R : α → α → Prop} {p : α → Bool} {l : List α}
    (h : List.Chain' R l) : List.Chain' R (l.dropWhile p) := by
  induction l with
  | nil => simp
  | cons a rest ih =>
    by_cases ha : p a
    · rw [List.dropWhile_cons]
      simp only [ha, if_true]
      exact ih h.tail
    · simpa [List.dropWhile_cons, ha] using h

theorem chain_popGE {level : Nat} {st : List HFrame}
    (h : List.Chain' (fun a b => b.depth < a.depth) st) :
    List.Chain' (fun a b => b.depth < a.depth) (popGE level st) :=
  chain_dropWhile h

theorem chain_push {r : TaxRow} {st : List HFrame}
    (h : List.Chain' (fun a b => b.depth < a.depth) st) :
    List.Chain' (fun a b => b.depth < a.depth) (frameOf r :: popGE r.indent st) := by
  rw [List.chain'_cons']
  refine ⟨?_, chain_popGE h⟩
  intro y hy
  exact head_popGE hy

theorem chain_stackGo (rows : List TaxRow) : ∀ st : List HFrame,
    List.Chain' (fun a b => b.depth < a.depth) st →
    List.Chain' (fun a b => b.depth < a.depth) (stackGo st rows) := by
  induction rows with
  | nil => intro st h; simpa [stackGo] using h
  | cons x xs ih =>
    intro st h
    rw [stackGo]
    exact ih _ (chain_push h)

theorem mem_popGE {level : Nat} {st : List HFrame} {f : HFrame}
    (h : f ∈ popGE level st) : f ∈ st :=
  (List.dropWhile_sublist _).subset h

theorem mem_stackGo (rows : List TaxRow) : ∀ (st : List HFrame) (f : HFrame),
    f ∈ stackGo st rows → f ∈ st ∨ ∃ r ∈ rows, f = frameOf r := by
  induction rows with
  | nil => intro st f h; exact Or.inl (by simpa [stackGo] using h)
  | cons x xs ih =>
    intro st f h
    rw [stackGo] at h
    rcases ih _ f h with hin | ⟨r, hr, hf⟩
    · rcases List.mem_cons.1 hin with hf | hin
      · exact Or.inr ⟨x, List.mem_cons_self x xs, hf⟩
      · exact Or.inl (mem_popGE hin)
    · exact Or.inr ⟨r, List.mem_cons_of_mem _ hr, hf⟩

/-- C1: build_hierarchy processes rows in original order; for row i it first
pops every stack frame whose depth is at least the row indent, then assigns
parent_concept from the identifier of the frame now on top (None when the
stack is empty), then pushes the (depth, identifier, label) frame of the row;
and on the scenario rows of depths 0, 1, 1, 0 with identifiers A, B, C, D the
parent_concepts are [None, A, A, None]. -/
theorem c1_builder_stack_semantics :
    (∀ (rows : List TaxRow) (i : Nat) (r : TaxRow),
        rows[i]? = some r →
        (buildParents rows)[i]? =
            some ((popGE r.indent (stackAfter (rows.take i))).head?.bind HFrame.concept) ∧
          stackAfter (rows.take (i + 1)) = frameOf r :: popGE r.indent (stackAfter (rows.take i))) ∧
      buildParents c1Rows = [none, some "A", some "A", none] := by
  refine ⟨?_, by decide⟩
  intro rows i r h
  exact parentsGo_char rows [] i r h

/-- Witness for C1 at the scenario input, row index 1 (row B at depth 1,
whose parent is A). -/
theorem c1_builder_stack_semantics_witness :
    (buildParents c1Rows)[1]? =
        some ((popGE c1RowB.indent (stackAfter (c1Rows.take 1))).head?.bind HFrame.concept) ∧
      stackAfter (c1Rows.take 2) = frameOf c1RowB :: popGE c1RowB.indent (stackAfter (c1Rows.take 1)) :=
  c1_builder_stack_semantics.1 c1Rows 1 c1RowB rfl

/-- C5: whenever row i of the input has a parent frame (the stack is non-empty
after the pop loop), that frame has depth strictly below the row indent and is
the frame of an earlier row, whose indent is therefore strictly below the
indent of row i; and after each row is processed the remaining ancestor stack
has strictly increasing depth from bottom to top (strictly decreasing from the
head, which is the top). -/
theorem c5_parent_depth_invariant :
    ∀ (rows : List TaxRow) (i : Nat) (r : TaxRow), rows[i]? = some r →
      (∀ f, (popGE r.indent (stackAfter (rows.take i))).head? = some f →
          f.depth < r.indent ∧ ∃ rj ∈ rows.take i, f = frameOf rj ∧ rj.indent < r.indent) ∧
        List.Chain' (fun a b => b.depth < a.depth) (stackAfter (rows.take (i + 1))) := by
  intro rows i r h
  constructor
  · intro f hf
    have hd : f.depth < r.indent := head_popGE hf
    have hmem : f ∈ stackAfter (rows.take i) :=
      mem_popGE (List.mem_of_mem_head? hf)
    rcases mem_stackGo (rows.take i) [] f hmem with hin | ⟨rj, hrj, hfeq⟩
    · simp at hin
    · exact ⟨hd, rj, hrj, hfeq, by rw [hfeq] at hd; exact hd⟩
  · exact chain_stackGo (rows.take (i + 1)) [] (by simp)

/-- Witness for C5 at the scenario input, row index 1: the parent frame of row
B is the frame of row A, at depth 0 below 1, and the stack after row B is
strictly decreasing in depth from the top. -/
theorem c5_parent_depth_invariant_witness :
    ((frameOf c1RowA).depth < c1RowB.indent ∧
        ∃ rj ∈ c1Rows.take 1, frameOf c1RowA = frameOf rj ∧ rj.indent < c1RowB.indent) ∧
      List.Chain' (fun a b => b.depth < a.depth) (stackAfter (c1Rows.take 2)) :=
  ⟨(c5_parent_depth_invariant c1Rows 1 c1RowB rfl).1 (frameOf c1RowA) rfl,
    (c5_parent_depth_invariant c1Rows 1 c1RowB rfl).2⟩

theorem flattenForest_append (a b : List TNode) :
    flattenForest (a ++ b) = flattenForest a ++ flattenForest b := by
  induction a with
  | nil => simp [flattenForest]
  | cons t ts ih => simp [flattenForest, ih]

/-- The flat rows an open construction frame will eventually contribute: its
node record followed by the flattening of the children gathered so far. -/
def framePending (f : BFrame) : List FlatRow := f.data :: flattenForest f.kids

/-- The flat rows a whole construction state will eventually contribute: the
finished roots, then the open frames from the bottom of the stack up. -/
def pendingFlat : List BFrame → List TNode → List FlatRow
  | [], acc => flattenForest acc
  | f :: rest, acc => pendingFlat rest acc ++ framePending f

theorem popCloseAux_pending (level : Nat) : ∀ (gs : List BFrame) (t : TNode) (acc : List TNode),
    pendingFlat (popCloseAux level gs t).1 (mergeAcc acc (popCloseAux level gs t).2) =
      pendingFlat gs acc ++ flattenNode t := by
  intro gs
  induction gs with
  | nil =>
    intro t acc
    simp [popCloseAux, mergeAcc, pendingFlat, flattenForest_append, flattenForest, flattenNode]
  | cons g gs ih =>
    intro t acc
    by_cases h : level ≤ g.depth
    · rw [popCloseAux, if_pos h, ih]
      simp [pendingFlat, framePending, flattenNode, flattenForest_append, flattenForest,
        List.append_assoc]
    · rw [popCloseAux, if_neg h]
      simp [mergeAcc, pendingFlat, framePending, flattenForest_append, flattenForest,
        List.append_assoc]

theorem popClose_pending (level : Nat) (frames : List BFrame) (acc : List TNode) :
    pendingFlat (popClose level frames acc).1 (popClose level frames acc).2 =
      pendingFlat frames acc := by
  cases frames with
  | nil => rfl
  | cons f rest =>
    by_cases h : level ≤ f.depth
    · rw [popClose]
      simp only [if_pos h]
      rw [popCloseAux_pending]
      simp [pendingFlat, framePending, flattenNode]
    · rw [popClose]
      simp only [if_neg h]

theorem popCloseAux_proj (level : Nat) : ∀ (gs : List BFrame) (t : TNode),
    ((popCloseAux level gs t).1).map projBF =
      (gs.map projBF).dropWhile (fun p => decide (level ≤ p.1)) := by
  intro gs
  induction gs with
  | nil => intro t; simp [popCloseAux]
  | cons g gs ih =>
    intro t
    by_cases h : level ≤ g.depth
    · rw [popCloseAux, if_pos h, ih]
      simp [projBF, List.dropWhile_cons, h]
    · rw [popCloseAux, if_neg h]
      simp [projBF, List.dropWhile_cons, h]

theorem popClose_proj (level : Nat) (frames : List BFrame) (acc : List TNode) :
    ((popClose level frames acc).1).map projBF = popGEP level (frames.map projBF) := by
  cases frames with
  | nil => simp [popClose, popGEP]
  | cons f rest =>
    by_cases h : level ≤ f.depth
    · rw [popClose]
      simp only [if_pos h]
      rw [popCloseAux_proj]
      simp [popGEP, projBF, List.dropWhile_cons, h]
    · rw [popClose]
      simp only [if_neg h]
      simp [popGEP, projBF, List.dropWhile_cons, h]

theorem popGEP_zero : ∀ l : List (Nat × String), popGEP 0 l = [] := by
  intro l
  induction l with
  | nil => rfl
  | cons a l ih => rw [popGEP, List.dropWhile_cons, if_pos (by simp)]; exact ih

theorem popClose_zero (frames : List BFrame) (acc : List TNode) :
    (popClose 0 frames acc).1 = [] := by
  have h := popClose_proj 0 frames acc
  rw [popGEP_zero] at h
  exact List.map_eq_nil_iff.1 h

theorem topPath_proj (frames : List BFrame) : topPathP (frames.map projBF) = topPathF frames := by
  cases frames <;> rfl

theorem pathGo_length : ∀ (rows : List TaxRow) (st : List (Nat × String)) (ps : List String),
    pathGo st rows = .ok ps → ps.length = rows.length := by
  intro rows
  induction rows with
  | nil =>
    intro st ps h
    rw [pathGo] at h
    simp at h
    simp [h]
  | cons r rs ih =>
    intro st ps h
    cases hb : basePathOf r with
    | none => simp [pathGo, hb] at h
    | some base =>
      simp only [pathGo, hb] at h
      cases hr : pathGo ((r.indent, currentPathOf (topPathP st) base r.labelClean) :: popGEP r.indent st) rs with
      | error e => rw [hr] at h; simp at h
      | ok ps2 =>
        rw [hr] at h
        simp at h
        rw [← h]
        simp [ih _ ps2 hr]

theorem treeGo_pathGo : ∀ (rows : List TaxRow) (frames : List BFrame) (acc : List TNode),
    (∀ e, pathGo (frames.map projBF) rows = .error e → treeGo frames acc rows = .error e) ∧
    (∀ ps, pathGo (frames.map projBF) rows = .ok ps →
      ∃ ts, treeGo frames acc rows = .ok ts ∧
        flattenForest ts = pendingFlat frames acc ++ List.zipWith rowNode rows ps) := by
  intro rows
  induction rows with
  | nil =>
    intro frames acc
    constructor
    · intro e he
      rw [pathGo] at he
      simp at he
    · intro ps hps
      rw [pathGo] at hps
      simp at hps
      refine ⟨(popClose 0 frames acc).2, rfl, ?_⟩
      have h1 := popClose_pending 0 frames acc
      rw [popClose_zero] at h1
      simpa [pendingFlat, hps] using h1
  | cons r rs ih =>
    intro frames acc
    cases hb : basePathOf r with
    | none =>
      constructor
      · intro e he
        simp only [pathGo, hb] at he
        simp at he
        simp only [treeGo, hb]
        subst he
        rfl
      · intro ps hps
        simp [pathGo, hb] at hps
    | some base =>
      have htop : topPathP (frames.map projBF) = topPathF frames := topPath_proj frames
      obtain ⟨ihE, ihO⟩ :=
        ih ({ depth := r.indent, path := currentPathOf (topPathF frames) base r.labelClean,
              data := rowNode r (currentPathOf (topPathF frames) base r.labelClean),
              kids := [] } :: (popClose r.indent frames acc).1)
          (popClose r.indent frames acc).2
      have hmapproj :
          ((({ depth := r.indent, path := currentPathOf (topPathF frames) base r.labelClean,
               data := rowNode r (currentPathOf (topPathF frames) base r.labelClean),
               kids := [] } : BFrame) :: (popClose r.indent frames acc).1).map projBF) =
            (r.indent, currentPathOf (topPathF frames) base r.labelClean) ::
              popGEP r.indent (frames.map projBF) := by
        simp [projBF, popClose_proj]
      constructor
      · intro e he
        simp only [pathGo, hb] at he
        rw [htop] at he
        cases hr : pathGo ((r.indent, currentPathOf (topPathF frames) base r.labelClean) :: popGEP r.indent (frames.map projBF)) rs with
        | ok ps2 => rw [hr] at he; simp at he
        | error e2 =>
          rw [hr] at he
          simp at he
          simp only [treeGo, hb]
          apply ihE
          rw [hmapproj, hr, he]
      · intro ps hps
        simp only [pathGo, hb] at hps
        rw [htop] at hps
        cases hr : pathGo ((r.indent, currentPathOf (topPathF frames) base r.labelClean) :: popGEP r.indent (frames.map projBF)) rs with
        | error e2 => rw [hr] at hps; simp at hps
        | ok ps2 =>
          rw [hr] at hps
          simp at hps
          obtain ⟨ts, hts, hflat⟩ := ihO ps2 (by rw [hmapproj]; exact hr)
          refine ⟨ts, ?_, ?_⟩
          · simp only [treeGo, hb]; exact hts
          · have hpend := popClose_pending r.indent frames acc
            rw [hflat, ← hps]
            simp [pendingFlat, framePending, flattenForest, hpend, List.append_assoc]

theorem dfToTree_ok_char (rows : List TaxRow) (ts : List TNode) (h : dfToTree rows = .ok ts) :
    ∃ ps, pathGo [] rows = .ok ps ∧ ps.length = rows.length ∧
      flattenForest ts = List.zipWith rowNode rows ps := by
  cases hp : pathGo [] rows with
  | error e =>
    have he := (treeGo_pathGo rows [] []).1 e (by simpa using hp)
    rw [dfToTree, he] at h
    simp at h
  | ok ps =>
    obtain ⟨ts2, hts2, hflat⟩ := (treeGo_pathGo rows [] []).2 ps (by simpa using hp)
    rw [dfToTree, hts2] at h
    simp at h
    rw [h] at hflat
    refine ⟨ps, rfl, pathGo_length rows [] ps hp, ?_⟩
    simpa [pendingFlat, flattenForest] using hflat

theorem zipWith_rowNode_fullPath : ∀ (rows : List TaxRow) (ps : List String),
    ps.length = rows.length →
    (List.zipWith rowNode rows ps).map FlatRow.fullPath = ps := by
  intro rows
  induction rows with
  | nil =>
    intro ps h
    simp at h
    simp [h]
  | cons r rs ih =>
    intro ps h
    cases ps with
    | nil => simp at h
    | cons p ps2 =>
      simp at h
      simp [List.zipWith, rowNode, ih ps2 h]

theorem zipWith_rowNode_strip : ∀ (rows : List TaxRow) (ps : List String),
    ps.length = rows.length →
    (List.zipWith rowNode rows ps).map stripPath = rows.map (fun r => rowNode r "") := by
  intro rows
  induction rows with
  | nil =>
    intro ps h
    simp
  | cons r rs ih =>
    intro ps h
    cases ps with
    | nil => simp at h
    | cons p ps2 =>
      simp at h
      simp [List.zipWith, stripPath, rowNode, ih ps2 h]

/-- C2 counterexample: on the three C2 scenario rows the flattened tree paths
produced by df_to_tree are [G gt A, G gt B, G gt B gt C] while the rule of the
claim (path computed from the post-pop parent frame) yields
[G gt A, G gt B, G gt A gt C]; the two disagree on the third row, so the claim
as stated is false on this input. -/
theorem c2_claim_counterexample :
    treePathsOf c2Rows = .ok ["G > A", "G > B", "G > B > C"] ∧
      claimC2Paths c2Rows = .ok ["G > A", "G > B", "G > A > C"] ∧
      treePathsOf c2Rows ≠ claimC2Paths c2Rows := by
  have hdf : dfToTree c2Rows = .ok c2Tree := rfl
  obtain ⟨ps, hp, hlen, hflat⟩ := dfToTree_ok_char c2Rows c2Tree hdf
  have hps : ps = ["G > A", "G > B", "G > B > C"] := by
    have hcalc : pathGo [] c2Rows = .ok ["G > A", "G > B", "G > B > C"] := rfl
    rw [hp] at hcalc
    simpa using hcalc
  have h1 : treePathsOf c2Rows = .ok ((flattenForest c2Tree).map FlatRow.fullPath) := by
    simp only [treePathsOf, hdf]
  have h2 : (flattenForest c2Tree).map FlatRow.fullPath = ["G > A", "G > B", "G > B > C"] := by
    rw [hflat, zipWith_rowNode_fullPath c2Rows ps hlen, hps]
  have h3 : claimC2Paths c2Rows = .ok ["G > A", "G > B", "G > A > C"] := rfl
  refine ⟨by rw [h1, h2], h3, ?_⟩
  rw [h1, h2, h3]
  intro hcontr
  simp at hcontr

/-- C2 amended: the tree materializer pops frames of depth at least the row
indent to choose the attachment point, but it computes the full path BEFORE
popping, from the most recently pushed frame; the full-path column of the
flattened tree equals the sequence pathGo computes with exactly that pre-pop
rule (when the pre-pop top path is non-empty and does not start with the base
segment, the path is that top path, a separator, and the cleaned label). -/
theorem c2_materializer_prepop_path :
    ∀ (rows : List TaxRow) (ts : List TNode), dfToTree rows = .ok ts →
      ∃ ps, pathGo [] rows = .ok ps ∧ (flattenForest ts).map FlatRow.fullPath = ps := by
  intro rows ts h
  obtain ⟨ps, hp, hlen, hflat⟩ := dfToTree_ok_char rows ts h
  exact ⟨ps, hp, by rw [hflat]; exact zipWith_rowNode_fullPath rows ps hlen⟩

/-- Witness for the amended C2 at the scenario input. -/
theorem c2_materializer_prepop_path_witness :
    ∃ ps, pathGo [] c2Rows = .ok ps ∧ (flattenForest c2Tree).map FlatRow.fullPath = ps :=
  c2_materializer_prepop_path c2Rows c2Tree rfl

/-- C6: whenever df_to_tree succeeds on a hierarchy table, the depth-first
pre-order flattening of the resulting tree has exactly one record per consumed
row, and, path field aside, the records are the node records of the input rows
in the original row order. -/
theorem c6_flatten_roundtrip :
    ∀ (rows : List TaxRow) (ts : List TNode), dfToTree rows = .ok ts →
      (flattenForest ts).length = rows.length ∧
        (flattenForest ts).map stripPath = rows.map (fun r => rowNode r "") := by
  intro rows ts h
  obtain ⟨ps, hp, hlen, hflat⟩ := dfToTree_ok_char rows ts h
  constructor
  · rw [hflat]
    simp [hlen]
  · rw [hflat]
    exact zipWith_rowNode_strip rows ps hlen

/-- Witness for C6 at the four-row scenario input. -/
theorem c6_flatten_roundtrip_witness :
    (flattenForest c6Tree).length = c1Rows.length ∧
      (flattenForest c6Tree).map stripPath = c1Rows.map (fun r => rowNode r "") :=
  c6_flatten_roundtrip c1Rows c6Tree rfl

/-- C3: the unique_full_path check returns true exactly when the full paths at
any two distinct positions of the flattened table (one row per tree node)
differ. -/
theorem c3_unique_full_path_iff :
    ∀ flat : List FlatRow,
      qaUniqueFullPath flat = true ↔
        ∀ i j : Fin (flat.map FlatRow.fullPath).length, i ≠ j →
          (flat.map FlatRow.fullPath).get i ≠ (flat.map FlatRow.fullPath).get j := by
  intro flat
  rw [qaUniqueFullPath, seriesIsUnique]
  constructor
  · intro h i j hij heq
    have hnd : (flat.map FlatRow.fullPath).Nodup := of_decide_eq_true h
    exact hij (List.nodup_iff_injective_get.1 hnd heq)
  · intro h
    apply decide_eq_true
    apply List.nodup_iff_injective_get.2
    intro i j heq
    by_contra hne
    exact h i j hne heq

/-- Witness for C3 at a concrete two-row flattened table with distinct
paths. -/
theorem c3_unique_full_path_iff_witness :
    qaUniqueFullPath c3Flat = true :=
  (c3_unique_full_path_iff c3Flat).mpr (by decide)

/-- C4: the run logs are always written, recording the force flag; when some
critical check failed and the force flag is absent, none of the hierarchy,
materialized-path or tree outputs is written (the run exits first); when some
critical check failed and the force flag is set, all three downstream outputs
are written. -/
theorem c4_fail_fast_gating :
    ∀ (failedCritical : List String) (force : Bool),
      (EtlEffect.writeRunLogJson force ∈ mainOutputPhase failedCritical force ∧
          EtlEffect.writeRunLogMd force ∈ mainOutputPhase failedCritical force) ∧
        (failedCritical ≠ [] → force = false →
          EtlEffect.writeHierarchyOutputs ∉ mainOutputPhase failedCritical force ∧
            EtlEffect.writeMaterializedOutputs ∉ mainOutputPhase failedCritical force ∧
            EtlEffect.writeTreeOutputs ∉ mainOutputPhase failedCritical force) ∧
        (failedCritical ≠ [] → force = true →
          EtlEffect.writeHierarchyOutputs ∈ mainOutputPhase failedCritical force ∧
            EtlEffect.writeMaterializedOutputs ∈ mainOutputPhase failedCritical force ∧
            EtlEffect.writeTreeOutputs ∈ mainOutputPhase failedCritical force) := by
  intro fc force
  refine ⟨⟨?_, ?_⟩, ?_, ?_⟩
  · cases fc <;> cases force <;> simp [mainOutputPhase]
  · cases fc <;> cases force <;> simp [mainOutputPhase]
  · intro hfc hforce
    subst hforce
    cases fc with
    | nil => exact absurd rfl hfc
    | cons a as => simp [mainOutputPhase]
  · intro hfc hforce
    subst hforce
    cases fc with
    | nil => exact absurd rfl hfc
    | cons a as => simp [mainOutputPhase]

/-- Witness for C4 with the single failing critical check unique_full_path,
once without and once with the force flag. -/
theorem c4_fail_fast_gating_witness :
    (EtlEffect.writeHierarchyOutputs ∉ mainOutputPhase ["unique_full_path"] false ∧
        EtlEffect.writeMaterializedOutputs ∉ mainOutputPhase ["unique_full_path"] false ∧
        EtlEffect.writeTreeOutputs ∉ mainOutputPhase ["unique_full_path"] false) ∧
      EtlEffect.writeRunLogJson false ∈ mainOutputPhase ["unique_full_path"] false ∧
      (EtlEffect.writeHierarchyOutputs ∈ mainOutputPhase ["unique_full_path"] true ∧
        EtlEffect.writeMaterializedOutputs ∈ mainOutputPhase ["unique_full_path"] true ∧
        EtlEffect.writeTreeOutputs ∈ mainOutputPhase ["unique_full_path"] true) :=
  ⟨(c4_fail_fast_gating ["unique_full_path"] false).2.1 (by simp) rfl,
    ((c4_fail_fast_gating ["unique_full_path"] false).1).1,
    (c4_fail_fast_gating ["unique_full_path"] true).2.2 (by simp) rfl⟩

/-- C7 evaluation at the failing input: cleaning a non-abstract row whose
Preferred label is whitespace-only yields an empty label_clean, yet the
no_empty_labels_unless_abstract check still returns true, because it tests
notna on a column astype(str) made free of NA values instead of testing
emptiness. -/
theorem c7_check_blind_to_empty_labels :
    cleanRow c7GRow = some c7RowCleaned ∧
      c7RowCleaned.labelClean = "" ∧
      c7RowCleaned.rowType = some "member" ∧
      qaNoEmptyLabelsUnlessAbstract [c7RowCleaned] = true :=
  ⟨rfl, rfl, rfl, rfl⟩

/-- C8 evaluation at the failing input: a row before any group header keeps
NaN in both group columns through the tagger; on such a row the base-path
expression evaluates to NaN (NaN is truthy, so the or-chain never reaches the
empty-string fallback) and df_to_tree raises TypeError instead of using an
empty base segment. -/
theorem c8_missing_group_typeerror :
    (tagRows [c8Raw]).map GRow.groupName = [none] ∧
      (tagRows [c8Raw]).map GRow.groupCode = [none] ∧
      basePathOf c8Row = none ∧
      dfToTree [c8Row] = .error "TypeError" :=
  ⟨rfl, rfl, rfl, rfl⟩

/-- C9 counterexample: build_hierarchy does not leave its input DataFrame
unchanged; after the call the input object carries the parent_concept column
(and the Level_i columns), so its post-call state differs from its pre-call
state at a concrete one-row input. -/
theorem c9_builder_mutates_input :
    ¬ ((buildHierarchyInPlace c9Df 5).1 = c9Df) := by
  intro h
  have h2 := congrArg HDf.parentCol h
  simp [buildHierarchyInPlace, c9Df] at h2

/-- C9 amended: the group tagger, the cleaner, the tree materializer and the
flattener all leave their inputs unchanged (each builds a fresh snapshot), but
the hierarchy builder mutates its input DataFrame in place, returning that
same annotated object: its post-call input equals its output, and the
parent_concept column has been assigned onto it. -/
theorem c9_stage_snapshot_amended :
    ∀ (raw : List RawRow) (g : List GRow) (df : HDf) (m : Nat) (t : List TNode),
      (groupTaggerStage raw).1 = raw ∧
        (cleanerStage g).1 = g ∧
        (materializerStage df).1 = df ∧
        (flattenerStage t).1 = t ∧
        (buildHierarchyInPlace df m).1 = (buildHierarchyInPlace df m).2 ∧
        ((buildHierarchyInPlace df m).1).parentCol = some (buildParents df.rows) :=
  fun _ _ _ _ _ => ⟨rfl, rfl, rfl, rfl, rfl, rfl⟩

theorem lookup_qaChecks_mem (hier : List TaxRow) (flat : List FlatRow) (c : String)
    (hc : c ∈ qaKeys) : ∃ v, (qaChecks hier flat).lookup c = some v := by
  simp [qaKeys] at hc
  rcases hc with h | h | h | h <;> subst h <;> exact ⟨_, rfl⟩

theorem lookup_qaChecks_none (hier : List TaxRow) (flat : List FlatRow) (c : String)
    (hc : c ∉ qaKeys) : (qaChecks hier flat).lookup c = none := by
  simp [qaKeys] at hc
  obtain ⟨h1, h2, h3, h4⟩ := hc
  simp [qaChecks, List.lookup, beq_eq_false_iff_ne.mpr h1, beq_eq_false_iff_ne.mpr h2,
    beq_eq_false_iff_ne.mpr h3, beq_eq_false_iff_ne.mpr h4]

/-- C10: computing the failed-critical list succeeds (returns a list) whenever
every configured critical name is one of the four qa_results keys, and raises
a KeyError (returns an error) whenever the configuration contains a name
outside those four, recording no result for it. -/
theorem c10_failed_critical_totality :
    ∀ (hier : List TaxRow) (flat : List FlatRow) (critical : List String),
      ((∀ c ∈ critical, c ∈ qaKeys) →
          ∃ l, failedCriticalE (qaChecks hier flat) critical = .ok l) ∧
        (∀ c ∈ critical, c ∉ qaKeys →
          ∃ e, failedCriticalE (qaChecks hier flat) critical = .error e) := by
  intro hier flat critical
  induction critical with
  | nil =>
    constructor
    · intro _
      exact ⟨[], rfl⟩
    · intro c hc
      simp at hc
  | cons a cs ih =>
    constructor
    · intro hall
      obtain ⟨v, hv⟩ := lookup_qaChecks_mem hier flat a (hall a (List.mem_cons_self a cs))
      have hok : dictGetB (qaChecks hier flat) a = .ok v := by
        simp [dictGetB, hv]
      obtain ⟨l, hl⟩ := ih.1 (fun c hc => hall c (List.mem_cons_of_mem a hc))
      refine ⟨if v then l else a :: l, ?_⟩
      simp only [failedCriticalE, hok, hl]
    · intro c hc hck
      rcases List.mem_cons.1 hc with rfl | hc2
      · have hnone := lookup_qaChecks_none hier flat c hck
        have herr : dictGetB (qaChecks hier flat) c = .error ("KeyError: " ++ c) := by
          simp [dictGetB, hnone]
        exact ⟨"KeyError: " ++ c, by simp only [failedCriticalE, herr]⟩
      · cases hget : dictGetB (qaChecks hier flat) a with
        | error e => exact ⟨e, by simp only [failedCriticalE, hget]⟩
        | ok v =>
          obtain ⟨e, he⟩ := ih.2 c hc2 hck
          exact ⟨e, by simp only [failedCriticalE, hget, he]⟩

/-- Witness for C10: with empty tables, the all-known configuration
[unique_full_path] yields a list, and a configuration containing
nonexistent_check yields a KeyError. -/
theorem c10_failed_critical_totality_witness :
    (∃ l, failedCriticalE (qaChecks [] []) ["unique_full_path"] = .ok l) ∧
      ∃ e, failedCriticalE (qaChecks [] []) ["nonexistent_check"] = .error e :=
  ⟨(c10_failed_critical_totality [] [] ["unique_full_path"]).1 (by decide),
    (c10_failed_critical_totality [] [] ["nonexistent_check"]).2 "nonexistent_check"
      (by decide) (by decide)⟩
